import Mathlib

/-!
Shallow embedding of the dakar-auto data-collection pipeline
(src/scraper.py and src/cleaner.py).

Strings are modelled as `List Char`; Python's ASCII-level string
operations (`str.lower`, `str.split`, `in`, `re.sub(r"[^\d]", ...)`,
`re.search(r"\b(19|20)\d{2}\b", ...)`, `str.title`) are embedded
character by character over the ASCII fragment they are used on.
pandas DataFrames are modelled as lists of rows with the fixed column
schema the pipeline produces, so the dynamic `col in df.columns`
guards of the source resolve to the always-present case.
-/

section

/- The Batteries rational primitives are `@[irreducible]`; make them
unfold so that concrete percentile computations evaluate by `decide`. -/
attribute [local semireducible] Rat.mul Rat.add Rat.sub

namespace DakarAuto

/-! ### Character helpers (ASCII fragment of Python semantics) -/

/-- ASCII decimal digit, the characters kept by `re.sub(r"[^\d]", "", ...)`. -/
def isDigitB (c : Char) : Bool := '0' ≤ c && c ≤ '9'

/-- ASCII lower-casing, mirroring `str.lower` on ASCII input. -/
def lowerChar (c : Char) : Char :=
  if 'A' ≤ c && c ≤ 'Z' then Char.ofNat (c.toNat + 32) else c

/-- ASCII upper-casing. -/
def upperChar (c : Char) : Char :=
  if 'a' ≤ c && c ≤ 'z' then Char.ofNat (c.toNat - 32) else c

/-- `str.lower` on a whole string. -/
def lowerStr (s : List Char) : List Char := s.map lowerChar

/-- ASCII letter test. -/
def isAlphaB (c : Char) : Bool :=
  ('a' ≤ c && c ≤ 'z') || ('A' ≤ c && c ≤ 'Z')

/-- Regex word character (`\w`), ASCII fragment: letter, digit or underscore. -/
def isWordChar (c : Char) : Bool := isAlphaB c || isDigitB c || c = '_'

/-! ### Substring containment (Python's `needle in hay`) -/

/-- Does `hay` start with `needle`? -/
def leadsWith : List Char → List Char → Bool
  | [], _ => true
  | _ :: _, [] => false
  | a :: as, b :: bs => a = b && leadsWith as bs

/-- Python's `needle in hay` substring test. -/
def containsSub (hay needle : List Char) : Bool :=
  leadsWith needle hay ||
    match hay with
    | [] => false
    | _ :: t => containsSub t needle

/-! ### Numeric price parse
`_extract_numeric_price` (src/scraper.py lines 152-158 and
src/cleaner.py lines 132-138): `cleaned = re.sub(r"[^\d]", "", price_text);
return int(cleaned) if cleaned else None`. -/

/-- The digit characters of a string, in order: `re.sub(r"[^\d]", "", s)`. -/
def digitsOf (s : List Char) : List Char := s.filter isDigitB

/-- Base-10 value of a digit string, mirroring Python `int`. -/
def digitsVal (ds : List Char) : Nat :=
  ds.foldl (fun acc c => 10 * acc + (c.toNat - 48)) 0

/-- `_extract_numeric_price`: keep the digit characters; empty digit
string yields `none`, otherwise the base-10 integer. -/
def extract_numeric_price (price_text : List Char) : Option Nat :=
  let cleaned := digitsOf price_text
  if cleaned.isEmpty then none else some (digitsVal cleaned)

/-! ### Detail extraction per listing
`DakarAutoScraper._extract_details` (src/scraper.py lines 160-192).
The Python `data` dict may either lack a key, hold `None`, or hold a
value; a field of type `Option (Option α)` mirrors this exactly
(`none` = key absent, `some none` = key present with `None`,
`some (some v)` = key present with value `v`). -/

structure Details where
  kilometrage : Option (Option Nat)
  boite_vitesse : Option (Option String)
  carburant : Option (Option String)
deriving DecidableEq, Repr

/-- The `data` dict as `_extract_details` receives it when none of the
three detail keys has been set yet. -/
def initDetails : Details := ⟨none, none, none⟩

/-- One iteration of the `for li in list_items` loop of
`_extract_details`: `text = li.get_text(strip=True).lower()`, then the
`km`, gearbox and fuel updates in source order. -/
def detailStep (category : String) (d : Details) (item : List Char) : Details :=
  let text := lowerStr item
  let d :=
    if containsSub text "km".toList then
      let km := digitsOf text
      if km.isEmpty then d else { d with kilometrage := some (some (digitsVal km)) }
    else d
  let d :=
    if category = "voitures" ∨ category = "location" then
      if containsSub text "automatique".toList then
        { d with boite_vitesse := some (some "Automatique") }
      else if containsSub text "manuelle".toList then
        { d with boite_vitesse := some (some "Manuelle") }
      else d
    else d
  if containsSub text "diesel".toList then { d with carburant := some (some "Diesel") }
  else if containsSub text "essence".toList then { d with carburant := some (some "Essence") }
  else d

/-- `_extract_details`: fold the loop over the list-item texts, then the
category-dependent default fills of lines 186-192. -/
def extract_details (category : String) (items : List (List Char)) (d : Details) : Details :=
  let d := items.foldl (detailStep category) d
  let d := if d.kilometrage = none then { d with kilometrage := some none } else d
  let d :=
    if d.boite_vitesse = none ∧ (category = "voitures" ∨ category = "location") then
      { d with boite_vitesse := some none }
    else d
  if d.carburant = none ∧ category = "voitures" then { d with carburant := some none } else d

/-- A bullet text whose lower-cased form records a fuel value in the
`_extract_details` loop. -/
def fuelMatch (t : List Char) : Bool :=
  containsSub (lowerStr t) "diesel".toList || containsSub (lowerStr t) "essence".toList

/-- A bullet text whose lower-cased form records a mileage value in the
`_extract_details` loop: it contains "km" and has at least one digit. -/
def kmMatch (t : List Char) : Bool :=
  containsSub (lowerStr t) "km".toList && !(digitsOf (lowerStr t)).isEmpty

/-! ### Title splitting
`re.search(r"\b(19|20)\d{2}\b", title)` embedded as a left-to-right scan
over the characters, plus Python `str.split()` (split on whitespace
runs, no empty tokens) and `list.remove` (first occurrence). -/

/-- Does the 4-character pattern `(19|20)\d{2}` match `a b c d`? -/
def isYear4 (a b c d : Char) : Bool :=
  ((a = '1' && b = '9') || (a = '2' && b = '0')) && isDigitB c && isDigitB d

/-- Word-boundary test against the character left of a match position:
at the start of the string (`none`) or after a non-word character. -/
def boundaryBefore : Option Char → Bool
  | none => true
  | some p => !isWordChar p

/-- Does `\b(19|20)\d{2}\b` match at the head of `s`, where `prev` is the
character immediately to the left (or `none` at string start)? -/
def yearHere (prev : Option Char) (s : List Char) : Bool :=
  match s with
  | a :: b :: c :: d :: rest =>
    boundaryBefore prev && isYear4 a b c d &&
      (match rest with
       | [] => true
       | e :: _ => !isWordChar e)
  | _ => false

/-- Left-to-right scan implementing `re.search`: the first position where
`yearHere` holds wins, and the matched text (`group(0)`) is the four
characters there. -/
def findYearFrom (prev : Option Char) (s : List Char) : Option (List Char) :=
  match s with
  | [] => none
  | c :: rest =>
    if yearHere prev (c :: rest) then some ((c :: rest).take 4)
    else findYearFrom (some c) rest

/-- `re.search(r"\b(19|20)\d{2}\b", s)`, returning the matched text. -/
def searchYear (s : List Char) : Option (List Char) := findYearFrom none s

/-- Is a token exactly a 4-character `(19|20)\d{2}` year? -/
def isYearToken : List Char → Bool
  | [a, b, c, d] => isYear4 a b c d
  | _ => false

/-- Accumulating worker for `str.split()`: `cur` is the current token,
reversed. -/
def splitWsAux : List Char → List Char → List (List Char)
  | cur, [] => if cur.isEmpty then [] else [cur.reverse]
  | cur, c :: rest =>
    if c.isWhitespace then
      if cur.isEmpty then splitWsAux [] rest else cur.reverse :: splitWsAux [] rest
    else splitWsAux (c :: cur) rest

/-- Python `str.split()` with no argument: split on whitespace runs,
dropping empty tokens. -/
def splitWs (s : List Char) : List (List Char) := splitWsAux [] s

/-- Python `list.remove`: drop the first occurrence of `x`. -/
def removeFirst [DecidableEq α] (x : α) : List α → List α
  | [] => []
  | y :: ys => if y = x then ys else y :: removeFirst x ys

/-- `" ".join(tokens)`. -/
def joinSpace : List (List Char) → List Char
  | [] => []
  | [t] => t
  | t :: ts => t ++ ' ' :: joinSpace ts

/-- `DakarAutoScraper._extract_title_parts` (src/scraper.py lines
133-150): result is `none` when the title has no tokens (no keys are
written); otherwise `(marque, modele, annee)`, with `annee = none`
mirroring `data['annee'] = None`. -/
def extract_title_parts (title : List Char) :
    Option (List Char × List Char × Option (List Char)) :=
  match splitWs title with
  | [] => none
  | m :: rest =>
    match searchYear title with
    | some y => some (m, joinSpace (removeFirst y rest), some y)
    | none => some (m, joinSpace rest, none)

/-- The inner `split_title` of `DataCleaner._split_combined_title`
(src/cleaner.py lines 106-125): `(marque, modele, annee)`, each possibly
`None`. -/
def split_title (title : List Char) :
    Option (List Char) × Option (List Char) × Option (List Char) :=
  let year := searchYear title
  let parts := splitWs title
  let marque := parts.head?
  let parts :=
    match year with
    | some y => if y ∈ parts then removeFirst y parts else parts
    | none => parts
  let parts :=
    match marque with
    | some m => if m ∈ parts then removeFirst m parts else parts
    | none => parts
  let modele := if parts.isEmpty then none else some (joinSpace parts)
  (marque, modele, year)

/-! ### Brand canonicalization
`DataCleaner.__init__` (src/cleaner.py lines 12-32) and the `marque`
treatment of `_clean_scraper_data` (lines 61-63):
`df['marque'].str.lower()` then `.map(self.marque_mapping)`
`.fillna(df['marque'].str.title())`. -/

/-- The fixed `marque_mapping` dictionary, in source order. -/
def marque_mapping : List (List Char × List Char) :=
  [("peugeot".toList, "Peugeot".toList),
   ("renault".toList, "Renault".toList),
   ("toyota".toList, "Toyota".toList),
   ("hyundai".toList, "Hyundai".toList),
   ("ford".toList, "Ford".toList),
   ("bmw".toList, "BMW".toList),
   ("kia".toList, "Kia".toList),
   ("land rover".toList, "Land Rover".toList),
   ("jeep".toList, "Jeep".toList),
   ("citroen".toList, "Citroën".toList),
   ("mazda".toList, "Mazda".toList),
   ("mitsubishi".toList, "Mitsubishi".toList),
   ("honda".toList, "Honda".toList),
   ("yamaha".toList, "Yamaha".toList),
   ("suzuki".toList, "Suzuki".toList),
   ("sym".toList, "SYM".toList),
   ("ktm".toList, "KTM".toList),
   ("piaggio".toList, "Piaggio".toList),
   ("haouju".toList, "Haouju".toList)]

/-- Worker for `str.title`: `prevAlpha` tells whether the previous
character was a cased letter. -/
def titleCaseAux : Bool → List Char → List Char
  | _, [] => []
  | prevAlpha, c :: rest =>
    if isAlphaB c then
      (if prevAlpha then lowerChar c else upperChar c) :: titleCaseAux true rest
    else c :: titleCaseAux false rest

/-- Python `str.title` on the ASCII fragment: upper-case each letter that
follows a non-letter, lower-case the other letters. -/
def titleCase (s : List Char) : List Char := titleCaseAux false s

/-- The per-value effect of lines 62-63 of src/cleaner.py: lower-case,
look up the brand dictionary, and fall back to the title-cased
(lower-cased) string when the lookup misses. -/
def clean_marque (s : List Char) : List Char :=
  let low := lowerStr s
  match marque_mapping.lookup low with
  | some canon => canon
  | none => titleCase low

/-! ### City extraction
`DataCleaner._extract_city` (src/cleaner.py lines 140-157). -/

/-- Python `str.strip()`: trim whitespace at both ends. -/
def stripWs (s : List Char) : List Char :=
  ((s.dropWhile Char.isWhitespace).reverse.dropWhile Char.isWhitespace).reverse

/-- The fixed list of known localities, in source order. -/
def cities : List (List Char) :=
  ["Dakar".toList, "Thiès".toList, "Saint-Louis".toList, "Ziguinchor".toList,
   "Kaolack".toList, "Mbour".toList, "Diourbel".toList, "Louga".toList,
   "Tambacounda".toList, "Kolda".toList, "Matam".toList, "Kaffrine".toList,
   "Sédhiou".toList, "Rufisque".toList, "Guédiawaye".toList]

/-- Python `s.split(',')`: split at every comma, keeping empty pieces. -/
def splitComma : List Char → List (List Char)
  | [] => [[]]
  | c :: rest =>
    let ps := splitComma rest
    if c = ',' then [] :: ps
    else
      match ps with
      | [] => [[c]]
      | p :: ps2 => (c :: p) :: ps2

/-- `_extract_city`: first known city whose lower-cased name occurs in the
lower-cased address; otherwise the stripped text after the last comma,
when the address contains a comma; otherwise missing. -/
def extract_city (address : List Char) : Option (List Char) :=
  match cities.find? (fun city => containsSub (lowerStr address) (lowerStr city)) with
  | some city => some city
  | none =>
    if ',' ∈ address then
      let parts := splitComma address
      if 1 < parts.length then some (stripWs ((parts.getLast?).getD [])) else none
    else none

/-! ### The tabular model
A pandas DataFrame is modelled as a list of rows over the fixed column
schema the pipeline produces (§ spec 3); every `col in df.columns` guard
of the source therefore resolves to the present case, and missing cells
are `none`.  Numeric cells are rationals so that the percentile
arithmetic of `_common_cleaning` is exact. -/

structure Row where
  titre_complet : Option (List Char)
  marque : Option (List Char)
  modele : Option (List Char)
  annee : Option ℚ
  prix_texte : Option (List Char)
  prix : Option ℚ
  adresse : Option (List Char)
  kilometrage : Option ℚ
  boite_vitesse : Option (List Char)
  carburant : Option (List Char)
  ville : Option (List Char)
deriving DecidableEq, Repr

/-- `DataCleaner._clean_scraper_data` (src/cleaner.py lines 52-71) on one
row: the `pd.to_numeric(errors='coerce')` coercion of the already-typed
numeric columns is the identity in this model; `marque` is lower-cased
and canonicalized; `adresse` is stripped and `ville` derived from it
(`_extract_city` of a missing address yields a missing city). -/
def clean_scraper_row (r : Row) : Row :=
  let r := { r with marque := r.marque.map clean_marque }
  let adr := r.adresse.map stripWs
  { r with adresse := adr, ville := adr.bind extract_city }

/-- `DataCleaner._clean_scraper_data` over the whole table. -/
def clean_scraper_data (df : List Row) : List Row := df.map clean_scraper_row

/-- `DataCleaner._clean_webscraper_data` (src/cleaner.py lines 73-102):
under the fixed schema the column renames are identities and
`titre_complet` is always a column, so the combined-title split branch
is not taken; `prix` is derived from `prix_texte` and the scraper
cleaning is applied. -/
def clean_webscraper_data (df : List Row) : List Row :=
  let df := df.map fun r =>
    { r with prix := (r.prix_texte.bind extract_numeric_price).map fun n => (n : ℚ) }
  clean_scraper_data df

/-! ### Deduplication, outlier trimming, sentinel fill
`DataCleaner._common_cleaning` (src/cleaner.py lines 159-177). -/

/-- The `drop_duplicates` subset: the `(titre_complet, prix)` pair. -/
def dedupKey (r : Row) : Option (List Char) × Option ℚ := (r.titre_complet, r.prix)

/-- Worker for `drop_duplicates(keep='first')`: keep a row when its key
has not been seen yet. -/
def dropDupAux : List Row → List (Option (List Char) × Option ℚ) → List Row
  | [], _ => []
  | r :: rs, seen =>
    if dedupKey r ∈ seen then dropDupAux rs seen
    else r :: dropDupAux rs (dedupKey r :: seen)

/-- `df.drop_duplicates(subset=['titre_complet', 'prix'], keep='first')`. -/
def drop_duplicates (rows : List Row) : List Row := dropDupAux rows []

/-- Insert into a sorted list of rationals. -/
def insertSorted (x : ℚ) : List ℚ → List ℚ
  | [] => [x]
  | y :: ys => if x ≤ y then x :: y :: ys else y :: insertSorted x ys

/-- Insertion sort, ascending. -/
def sortQ (xs : List ℚ) : List ℚ := xs.foldr insertSorted []

/-- pandas `Series.quantile(q)` with the default linear interpolation:
with sorted values `v₀ ≤ … ≤ vₙ₋₁` and `h = q·(n-1)`, the result is
`v⌊h⌋ + (h-⌊h⌋)·(v⌊h⌋₊₁ - v⌊h⌋)`. -/
def quantile (q : ℚ) (xs : List ℚ) : ℚ :=
  let sorted := sortQ xs
  let n := sorted.length
  let h : ℚ := q * ((n : ℚ) - 1)
  let lo := (Rat.floor h).toNat
  let vlo := sorted.getD lo 0
  let vhi := sorted.getD (lo + 1) vlo
  vlo + (h - (Rat.floor h : ℚ)) * (vhi - vlo)

/-- The `prix` values of the price-present rows, in order. -/
def pricesOf (rows : List Row) : List ℚ := rows.filterMap Row.prix

/-- The sentinel written into missing text cells. -/
def sentinel : List Char := "Non spécifié".toList

/-- The per-row effect of `fillna('Non spécifié')` over the five text
columns of lines 172-175. -/
def fillRow (r : Row) : Row :=
  { r with
    adresse := some (r.adresse.getD sentinel),
    boite_vitesse := some (r.boite_vitesse.getD sentinel),
    carburant := some (r.carburant.getD sentinel),
    ville := some (r.ville.getD sentinel),
    modele := some (r.modele.getD sentinel) }

/-- Steps 1-2 of `_common_cleaning` (lines 160-164): dedup keeping the
first occurrence, then `df[df['prix'].notna()]`. -/
def pricePresent (rows : List Row) : List Row :=
  (drop_duplicates rows).filter fun r => r.prix.isSome

/-- Step 3 of `_common_cleaning` (lines 166-169): when any rows remain,
keep the rows whose `prix` lies in the inclusive `[P5, P95]` band of the
current row set (a missing `prix` compares false, as in pandas). -/
def bandFilter (rows : List Row) : List Row :=
  if 0 < rows.length then
    let q1 := quantile (mkRat 5 100) (pricesOf rows)
    let q3 := quantile (mkRat 95 100) (pricesOf rows)
    rows.filter fun r =>
      match r.prix with
      | some p => decide (q1 ≤ p) && decide (p ≤ q3)
      | none => false
  else rows

/-- `DataCleaner._common_cleaning`: dedup on `(titre_complet, prix)`
keeping the first occurrence, drop rows with missing `prix`, trim to the
inclusive `[P5, P95]` price band of the surviving rows when any remain,
then fill the text sentinels. -/
def common_cleaning (rows : List Row) : List Row :=
  (bandFilter (pricePresent rows)).map fillRow

/-- `DataCleaner.clean_dataframe` (src/cleaner.py lines 34-50): an empty
table is returned unchanged at once; otherwise the source-specific
cleaning runs, followed by `_common_cleaning`. -/
def clean_dataframe (df : List Row) (source : String) : List Row :=
  if df.isEmpty then df
  else
    let df1 := if source = "webscraper" then clean_webscraper_data df else clean_scraper_data df
    common_cleaning df1

/-- A row carrying only a title and a price, as used by the concrete
tables below. -/
def mkRow (t : List Char) (p : Option ℚ) : Row :=
  ⟨some t, none, none, none, none, p, none, none, none, none, none⟩

end DakarAuto

namespace DakarAuto

/-! ## Lemmas about the `_extract_details` loop -/

lemma detailStep_carburant (c : String) (d : Details) (item : List Char) :
    (detailStep c d item).carburant =
      if containsSub (lowerStr item) "diesel".toList then some (some "Diesel")
      else if containsSub (lowerStr item) "essence".toList then some (some "Essence")
      else d.carburant := by
  simp only [detailStep]
  split_ifs <;> rfl

lemma detailStep_kilometrage (c : String) (d : Details) (item : List Char) :
    (detailStep c d item).kilometrage =
      if containsSub (lowerStr item) "km".toList ∧ ¬(digitsOf (lowerStr item)).isEmpty then
        some (some (digitsVal (digitsOf (lowerStr item))))
      else d.kilometrage := by
  simp only [detailStep]
  split_ifs <;> simp_all

lemma extract_details_carburant (c : String) (items : List (List Char)) (d : Details) :
    (extract_details c items d).carburant =
      if (items.foldl (detailStep c) d).carburant = none ∧ c = "voitures" then some none
      else (items.foldl (detailStep c) d).carburant := by
  simp only [extract_details]
  generalize (items.foldl (detailStep c) d) = L
  obtain ⟨k, b, cb⟩ := L
  split_ifs <;> simp_all

lemma extract_details_kilometrage (c : String) (items : List (List Char)) (d : Details) :
    (extract_details c items d).kilometrage =
      if (items.foldl (detailStep c) d).kilometrage = none then some none
      else (items.foldl (detailStep c) d).kilometrage := by
  simp only [extract_details]
  generalize (items.foldl (detailStep c) d) = L
  obtain ⟨k, b, cb⟩ := L
  split_ifs <;> simp_all

lemma foldl_carburant_congr (c c2 : String) :
    ∀ (items : List (List Char)) (d d2 : Details), d.carburant = d2.carburant →
      (items.foldl (detailStep c) d).carburant = (items.foldl (detailStep c2) d2).carburant := by
  intro items
  induction items with
  | nil => intro d d2 h; simpa using h
  | cons t ts ih =>
    intro d d2 h
    simp only [List.foldl_cons]
    apply ih
    rw [detailStep_carburant, detailStep_carburant, h]

lemma foldl_carburant_keep (c : String) :
    ∀ (items : List (List Char)) (d : Details) (v : String),
      d.carburant = some (some v) →
      ∃ w, (items.foldl (detailStep c) d).carburant = some (some w) := by
  intro items
  induction items with
  | nil => intro d v h; exact ⟨v, by simpa using h⟩
  | cons t ts ih =>
    intro d v h
    simp only [List.foldl_cons]
    have hstep : (detailStep c d t).carburant = some (some "Diesel")
        ∨ (detailStep c d t).carburant = some (some "Essence")
        ∨ (detailStep c d t).carburant = some (some v) := by
      rw [detailStep_carburant]
      split_ifs <;> simp [h]
    rcases hstep with h2 | h2 | h2
    · exact ih _ _ h2
    · exact ih _ _ h2
    · exact ih _ _ h2

lemma foldl_carburant_matched (c : String) :
    ∀ (items : List (List Char)) (d : Details),
      (∃ t ∈ items, fuelMatch t = true) →
      ∃ w, (items.foldl (detailStep c) d).carburant = some (some w) := by
  intro items
  induction items with
  | nil => rintro d ⟨t, ht, -⟩; cases ht
  | cons t ts ih =>
    rintro d ⟨u, hu, hfuel⟩
    rcases List.mem_cons.1 hu with rfl | hu2
    · simp only [List.foldl_cons]
      unfold fuelMatch at hfuel
      rw [Bool.or_eq_true] at hfuel
      have hstep : ∃ w, (detailStep c d u).carburant = some (some w) := by
        rw [detailStep_carburant]
        rcases hfuel with h | h
        · exact ⟨"Diesel", by rw [h]; rfl⟩
        · rcases Bool.eq_false_or_eq_true (containsSub (lowerStr u) "diesel".toList) with hd | hd
          · exact ⟨"Diesel", by rw [hd]; rfl⟩
          · exact ⟨"Essence", by rw [hd, h]; rfl⟩
      obtain ⟨w, hw⟩ := hstep
      exact foldl_carburant_keep c ts _ w hw
    · simp only [List.foldl_cons]
      exact ih _ ⟨u, hu2, hfuel⟩

lemma foldl_kilometrage_skip (c : String) :
    ∀ (items : List (List Char)) (d : Details),
      (∀ t ∈ items, kmMatch t = false) →
      (items.foldl (detailStep c) d).kilometrage = d.kilometrage := by
  intro items
  induction items with
  | nil => intro d _; rfl
  | cons t ts ih =>
    intro d h
    simp only [List.foldl_cons]
    rw [ih _ (fun u hu => h u (List.mem_cons_of_mem t hu))]
    rw [detailStep_kilometrage]
    have ht := h t (List.mem_cons_self t ts)
    unfold kmMatch at ht
    rw [if_neg]
    rintro ⟨h1, h2⟩
    rw [h1, Bool.true_and] at ht
    exact h2 (by simpa using ht)

/-! ## Lemmas about deduplication and the cleaning pipeline -/

lemma fillRow_prix (r : Row) : (fillRow r).prix = r.prix := rfl

lemma fillRow_key (r : Row) : dedupKey (fillRow r) = dedupKey r := rfl

lemma fillRow_idem (r : Row) : fillRow (fillRow r) = fillRow r := rfl

lemma dropDupAux_sublist :
    ∀ (rows : List Row) (seen), (dropDupAux rows seen).Sublist rows := by
  intro rows
  induction rows with
  | nil => intro seen; exact List.Sublist.refl _
  | cons r rs ih =>
    intro seen
    simp only [dropDupAux]
    split_ifs
    · exact (ih seen).trans (List.sublist_cons_self r rs)
    · exact List.Sublist.cons₂ r (ih _)

lemma dropDupAux_mem :
    ∀ (rows : List Row) (seen) (r : Row), r ∈ dropDupAux rows seen →
      dedupKey r ∉ seen
      ∧ rows.find? (fun x => decide (dedupKey x = dedupKey r)) = some r := by
  intro rows
  induction rows with
  | nil => intro seen r h; cases h
  | cons x xs ih =>
    intro seen r h
    simp only [dropDupAux] at h
    by_cases hx : dedupKey x ∈ seen
    · rw [if_pos hx] at h
      obtain ⟨hnot, hfind⟩ := ih seen r h
      have hne : dedupKey x ≠ dedupKey r := fun he => hnot (he ▸ hx)
      refine ⟨hnot, ?_⟩
      rw [List.find?_cons_of_neg _ (by simpa using hne)]
      exact hfind
    · rw [if_neg hx] at h
      rcases List.mem_cons.1 h with rfl | h2
      · exact ⟨hx, by rw [List.find?_cons_of_pos _ (by simp)]⟩
      · obtain ⟨hnot, hfind⟩ := ih _ r h2
        have hne : dedupKey x ≠ dedupKey r :=
          fun he => hnot (by rw [← he]; exact List.mem_cons_self _ _)
        refine ⟨fun hmem => hnot (List.mem_cons_of_mem _ hmem), ?_⟩
        rw [List.find?_cons_of_neg _ (by simpa using hne)]
        exact hfind

lemma dropDupAux_pairwise :
    ∀ (rows : List Row) (seen),
      (dropDupAux rows seen).Pairwise fun a b => dedupKey a ≠ dedupKey b := by
  intro rows
  induction rows with
  | nil => intro seen; exact List.Pairwise.nil
  | cons x xs ih =>
    intro seen
    simp only [dropDupAux]
    split_ifs with hx
    · exact ih seen
    · refine List.Pairwise.cons ?_ (ih _)
      intro b hb he
      exact (dropDupAux_mem xs _ b hb).1 (he ▸ List.mem_cons_self _ _)

lemma dropDupAux_complete :
    ∀ (rows : List Row) (seen) (r : Row), r ∈ rows →
      dedupKey r ∈ seen
      ∨ ∃ r2, r2 ∈ dropDupAux rows seen ∧ dedupKey r2 = dedupKey r := by
  intro rows
  induction rows with
  | nil => intro seen r h; cases h
  | cons x xs ih =>
    intro seen r h
    rcases List.mem_cons.1 h with rfl | h2
    · by_cases hx : dedupKey r ∈ seen
      · exact Or.inl hx
      · refine Or.inr ⟨r, ?_, rfl⟩
        simp only [dropDupAux, if_neg hx]
        exact List.mem_cons_self _ _
    · simp only [dropDupAux]
      by_cases hx : dedupKey x ∈ seen
      · rw [if_pos hx]; exact ih seen r h2
      · rw [if_neg hx]
        rcases ih (dedupKey x :: seen) r h2 with hs | ⟨r2, hr2, hk⟩
        · rcases List.mem_cons.1 hs with he | hs2
          · exact Or.inr ⟨x, List.mem_cons_self _ _, he.symm⟩
          · exact Or.inl hs2
        · exact Or.inr ⟨r2, List.mem_cons_of_mem _ hr2, hk⟩

lemma dropDupAux_eq_self :
    ∀ (l : List Row) (seen),
      (l.Pairwise fun a b => dedupKey a ≠ dedupKey b) →
      (∀ r ∈ l, dedupKey r ∉ seen) →
      dropDupAux l seen = l := by
  intro l
  induction l with
  | nil => intro seen _ _; rfl
  | cons x xs ih =>
    intro seen hp hseen
    simp only [dropDupAux]
    rw [if_neg (hseen x (List.mem_cons_self _ _))]
    congr 1
    refine ih _ (List.Pairwise.of_cons hp) ?_
    intro r hr hmem
    rcases List.mem_cons.1 hmem with he | hs
    · exact (List.pairwise_cons.1 hp).1 r hr he.symm
    · exact hseen r (List.mem_cons_of_mem _ hr) hs

lemma drop_duplicates_sublist (rows : List Row) :
    (drop_duplicates rows).Sublist rows :=
  dropDupAux_sublist rows []

lemma pricePresent_sublist (rows : List Row) : (pricePresent rows).Sublist rows :=
  (List.filter_sublist _).trans (drop_duplicates_sublist rows)

lemma bandFilter_sublist (rows : List Row) : (bandFilter rows).Sublist rows := by
  unfold bandFilter
  split_ifs
  · exact List.filter_sublist _
  · exact List.Sublist.refl _

lemma pricePresent_isSome (rows : List Row) :
    ∀ r ∈ pricePresent rows, r.prix.isSome = true := by
  intro r hr
  exact (List.mem_filter.1 hr).2

lemma map_fillRow_fixed :
    ∀ l : List Row, (∀ r ∈ l, fillRow r = r) → l.map fillRow = l := by
  intro l
  induction l with
  | nil => intro _; rfl
  | cons x xs ih =>
    intro h
    simp only [List.map_cons]
    rw [h x (List.mem_cons_self _ _), ih (fun r hr => h r (List.mem_cons_of_mem _ hr))]

lemma common_cleaning_pairwise_key (rows : List Row) :
    (common_cleaning rows).Pairwise fun a b => dedupKey a ≠ dedupKey b := by
  unfold common_cleaning
  rw [List.pairwise_map]
  have hsub : (bandFilter (pricePresent rows)).Sublist (drop_duplicates rows) :=
    (bandFilter_sublist _).trans (List.filter_sublist _)
  exact ((dropDupAux_pairwise rows []).sublist hsub).imp
    (fun h => by rw [fillRow_key, fillRow_key]; exact h)

lemma common_cleaning_of_clean (l : List Row)
    (hfix : ∀ r ∈ l, fillRow r = r) (hsome : ∀ r ∈ l, r.prix.isSome = true)
    (hpair : l.Pairwise fun a b => dedupKey a ≠ dedupKey b) :
    (common_cleaning l).Sublist l := by
  have hd : drop_duplicates l = l :=
    dropDupAux_eq_self l [] hpair (fun r _ h => List.not_mem_nil _ h)
  have hpp : pricePresent l = l := by
    unfold pricePresent
    rw [hd]
    exact List.filter_eq_self.2 hsome
  unfold common_cleaning
  rw [hpp, map_fillRow_fixed _ (fun r hr => hfix r ((bandFilter_sublist l).subset hr))]
  exact bandFilter_sublist l

/-! ## Claim C3 -/

/-- C3, counterexample: on five distinct rows with prices 0,1,2,3,4, one
pass of the Deduplicator/Outlier Filter keeps the prices 1,2,3 (band
[0.2, 3.8]); a second pass recomputes the band on the trimmed set
([1.1, 2.9]) and keeps only the price 2, so the filter is not
idempotent. -/
theorem common_cleaning_not_idempotent :
    common_cleaning (common_cleaning
        [mkRow "a".toList (some 0), mkRow "b".toList (some 1), mkRow "c".toList (some 2),
         mkRow "d".toList (some 3), mkRow "e".toList (some 4)])
      ≠ common_cleaning
        [mkRow "a".toList (some 0), mkRow "b".toList (some 1), mkRow "c".toList (some 2),
         mkRow "d".toList (some 3), mkRow "e".toList (some 4)] := by
  decide

/-- C3, amended: a second application of the Deduplicator/Outlier Filter
yields a sublist (hence a subset, in the original order) of the first
application's output — equality fails in general because the percentile
band is recomputed on the already-trimmed set. -/
theorem common_cleaning_twice_sublist (rows : List Row) :
    (common_cleaning (common_cleaning rows)).Sublist (common_cleaning rows) := by
  apply common_cleaning_of_clean
  · intro r hr
    unfold common_cleaning at hr
    obtain ⟨r0, -, rfl⟩ := List.mem_map.1 hr
    exact fillRow_idem r0
  · intro r hr
    unfold common_cleaning at hr
    obtain ⟨r0, hr0, rfl⟩ := List.mem_map.1 hr
    rw [fillRow_prix]
    exact pricePresent_isSome rows r0 ((bandFilter_sublist _).subset hr0)
  · exact common_cleaning_pairwise_key rows

/-! ## Claim C4 -/

/-- C4: when the post-dedup, price-present row set is empty the output is
empty (the percentile step is skipped); otherwise every output row's
`prix` lies in the inclusive `[P5, P95]` band computed over that
post-dedup, price-present row set. -/
theorem common_cleaning_price_band (rows : List Row) :
    (pricePresent rows = [] → common_cleaning rows = [])
    ∧ ∀ r ∈ common_cleaning rows, ∃ p, r.prix = some p
        ∧ quantile (mkRat 5 100) (pricesOf (pricePresent rows)) ≤ p
        ∧ p ≤ quantile (mkRat 95 100) (pricesOf (pricePresent rows)) := by
  constructor
  · intro h
    unfold common_cleaning bandFilter
    rw [h]
    rfl
  · intro r hr
    unfold common_cleaning at hr
    obtain ⟨r0, hr0, rfl⟩ := List.mem_map.1 hr
    unfold bandFilter at hr0
    by_cases hlen : 0 < (pricePresent rows).length
    · rw [if_pos hlen] at hr0
      obtain ⟨hmem, hpred⟩ := List.mem_filter.1 hr0
      rcases hp : r0.prix with - | p
      · rw [hp] at hpred
        simp at hpred
      · rw [hp] at hpred
        rw [Bool.and_eq_true, decide_eq_true_eq, decide_eq_true_eq] at hpred
        exact ⟨p, by rw [fillRow_prix, hp], hpred.1, hpred.2⟩
    · rw [if_neg hlen] at hr0
      have hnil : pricePresent rows = [] :=
        List.length_eq_zero.1 (Nat.eq_zero_of_not_pos hlen)
      rw [hnil] at hr0
      cases hr0

/-- C4, witness at a one-row table. -/
theorem common_cleaning_price_band_witness :
    ∃ p, (fillRow (mkRow "t".toList (some 5))).prix = some p
      ∧ quantile (mkRat 5 100) (pricesOf (pricePresent [mkRow "t".toList (some 5)])) ≤ p
      ∧ p ≤ quantile (mkRat 95 100) (pricesOf (pricePresent [mkRow "t".toList (some 5)])) :=
  (common_cleaning_price_band [mkRow "t".toList (some 5)]).2
    (fillRow (mkRow "t".toList (some 5))) (by decide)

/-! ## Claim C5 -/

/-- C5: after the Deduplicator/Outlier Filter no two output rows share
the same `(titre_complet, prix)` pair; deduplication keeps, for every
input row's pair, exactly the first occurrence in input order, and the
output is an order-preserving selection (a mapped sublist) of the
input. -/
theorem common_cleaning_dedup_invariants (rows : List Row) :
    ((common_cleaning rows).Pairwise fun a b => dedupKey a ≠ dedupKey b)
    ∧ (drop_duplicates rows).Sublist rows
    ∧ (∀ r ∈ rows, ∃ r2, r2 ∈ drop_duplicates rows ∧ dedupKey r2 = dedupKey r)
    ∧ (∀ r ∈ drop_duplicates rows,
        rows.find? (fun x => decide (dedupKey x = dedupKey r)) = some r)
    ∧ ∃ sel : List Row, sel.Sublist rows ∧ common_cleaning rows = sel.map fillRow := by
  refine ⟨common_cleaning_pairwise_key rows, drop_duplicates_sublist rows, ?_, ?_, ?_⟩
  · intro r hr
    rcases dropDupAux_complete rows [] r hr with hs | h
    · cases hs
    · exact h
  · intro r hr
    exact (dropDupAux_mem rows [] r hr).2
  · exact ⟨bandFilter (pricePresent rows),
      (bandFilter_sublist _).trans (pricePresent_sublist rows), rfl⟩

/-- C5, witness: on a table whose two rows share their key, the first
occurrence represents the pair after deduplication. -/
theorem common_cleaning_dedup_invariants_witness :
    ∃ r2, r2 ∈ drop_duplicates [mkRow "a".toList (some 1), mkRow "a".toList (some 1)]
      ∧ dedupKey r2 = dedupKey (mkRow "a".toList (some 1)) :=
  (common_cleaning_dedup_invariants
      [mkRow "a".toList (some 1), mkRow "a".toList (some 1)]).2.2.1
    (mkRow "a".toList (some 1)) (by decide)

/-! ## Claim C7 -/

/-- C7: every row of the final cleaned table is the sentinel-filled image
of an input row, and its five text fields `adresse`, `boite_vitesse`,
`carburant`, `ville`, `modele` are all present (missing cells were
replaced by "Non spécifié" by `fillRow`). -/
theorem common_cleaning_text_fields_filled (rows : List Row) :
    ∀ r ∈ common_cleaning rows, (∃ r0, r0 ∈ rows ∧ r = fillRow r0)
      ∧ r.adresse.isSome = true ∧ r.boite_vitesse.isSome = true
      ∧ r.carburant.isSome = true ∧ r.ville.isSome = true ∧ r.modele.isSome = true := by
  intro r hr
  unfold common_cleaning at hr
  obtain ⟨r0, hr0, rfl⟩ := List.mem_map.1 hr
  have hmem : r0 ∈ rows :=
    ((bandFilter_sublist _).trans (pricePresent_sublist rows)).subset hr0
  exact ⟨⟨r0, hmem, rfl⟩, rfl, rfl, rfl, rfl, rfl⟩

/-- C7, witness: the filled row of a one-row table with all text fields
missing carries the sentinel in each of the five fields. -/
theorem common_cleaning_text_fields_filled_witness :
    (∃ r0, r0 ∈ [mkRow "t".toList (some 5)] ∧ fillRow (mkRow "t".toList (some 5)) = fillRow r0)
    ∧ (fillRow (mkRow "t".toList (some 5))).adresse.isSome = true
    ∧ (fillRow (mkRow "t".toList (some 5))).boite_vitesse.isSome = true
    ∧ (fillRow (mkRow "t".toList (some 5))).carburant.isSome = true
    ∧ (fillRow (mkRow "t".toList (some 5))).ville.isSome = true
    ∧ (fillRow (mkRow "t".toList (some 5))).modele.isSome = true :=
  common_cleaning_text_fields_filled [mkRow "t".toList (some 5)]
    (fillRow (mkRow "t".toList (some 5))) (by decide)

/-! ## Lemmas about the year regex scan and whitespace splitting -/

lemma isYear4_space_a (b c d : Char) : isYear4 ' ' b c d = false := by
  simp [isYear4]

lemma isYear4_space_b (a c d : Char) : isYear4 a ' ' c d = false := by
  simp [isYear4]

lemma isYear4_space_c (a b d : Char) : isYear4 a b ' ' d = false := by
  simp [isYear4, isDigitB]

lemma isYear4_space_d (a b c : Char) : isYear4 a b c ' ' = false := by
  simp [isYear4, isDigitB]

/-- The year pattern never matches at a space. -/
lemma yearHere_space0 (p : Option Char) (r : List Char) :
    yearHere p (' ' :: r) = false := by
  match r with
  | [] => rfl
  | [b] => rfl
  | [b, c] => rfl
  | b :: c :: d :: t => simp [yearHere, isYear4_space_a]

lemma yearHere_space1 (p : Option Char) (a : Char) (r : List Char) :
    yearHere p (a :: ' ' :: r) = false := by
  match r with
  | [] => rfl
  | [c] => rfl
  | c :: d :: t => simp [yearHere, isYear4_space_b]

lemma yearHere_space2 (p : Option Char) (a b : Char) (r : List Char) :
    yearHere p (a :: b :: ' ' :: r) = false := by
  match r with
  | [] => rfl
  | d :: t => simp [yearHere, isYear4_space_c]

lemma yearHere_space3 (p : Option Char) (a b c : Char) (r : List Char) :
    yearHere p (a :: b :: c :: ' ' :: r) = false := by
  simp [yearHere, isYear4_space_d]

/-- Appending a space-led suffix does not change whether the year pattern
matches at the head: a match never reaches past the space. -/
lemma yearHere_append_space (p : Option Char) (s rest : List Char) :
    yearHere p (s ++ ' ' :: rest) = yearHere p s := by
  match s with
  | [] =>
    show yearHere p (' ' :: rest) = false
    exact yearHere_space0 p rest
  | [a] =>
    show yearHere p (a :: ' ' :: rest) = false
    exact yearHere_space1 p a rest
  | [a, b] =>
    show yearHere p (a :: b :: ' ' :: rest) = false
    exact yearHere_space2 p a b rest
  | [a, b, c] =>
    show yearHere p (a :: b :: c :: ' ' :: rest) = false
    exact yearHere_space3 p a b c rest
  | [a, b, c, d] =>
    show yearHere p (a :: b :: c :: d :: ' ' :: rest) = yearHere p [a, b, c, d]
    simp [yearHere, isWordChar, isAlphaB, isDigitB]
  | a :: b :: c :: d :: e :: t => rfl

/-- Only the word-character status of the previous character matters to
the match test. -/
lemma yearHere_nonword (p : Char) (hp : isWordChar p = false) (s : List Char) :
    yearHere (some p) s = yearHere none s := by
  match s with
  | [] => rfl
  | [a] => rfl
  | [a, b] => rfl
  | [a, b, c] => rfl
  | a :: b :: c :: d :: t => simp [yearHere, boundaryBefore, hp]

lemma findYearFrom_nonword (p : Char) (hp : isWordChar p = false) (s : List Char) :
    findYearFrom (some p) s = findYearFrom none s := by
  cases s with
  | nil => rfl
  | cons c rest =>
    simp only [findYearFrom]
    rw [yearHere_nonword p hp]

/-- Scanning a matchless chunk, then a space, continues after the
space. -/
lemma findYearFrom_append_skip :
    ∀ (t : List Char) (p : Option Char) (rest : List Char),
      findYearFrom p t = none →
      findYearFrom p (t ++ ' ' :: rest) = findYearFrom (some ' ') rest := by
  intro t
  induction t with
  | nil =>
    intro p rest _
    have hstep : findYearFrom p (([] : List Char) ++ ' ' :: rest)
        = if yearHere p (' ' :: rest) then some ((' ' :: rest).take 4)
          else findYearFrom (some ' ') rest := rfl
    rw [hstep, yearHere_space0]
    rfl
  | cons c t2 ih =>
    intro p rest h
    have hhead : findYearFrom p (c :: t2)
        = if yearHere p (c :: t2) then some ((c :: t2).take 4)
          else findYearFrom (some c) t2 := rfl
    rw [hhead] at h
    have hstep : findYearFrom p ((c :: t2) ++ ' ' :: rest)
        = if yearHere p ((c :: t2) ++ ' ' :: rest) then some (((c :: t2) ++ ' ' :: rest).take 4)
          else findYearFrom (some c) (t2 ++ ' ' :: rest) := rfl
    rw [hstep, yearHere_append_space]
    by_cases hc : yearHere p (c :: t2) = true
    · rw [if_pos hc] at h
      cases h
    · rw [if_neg hc] at h
      rw [if_neg hc]
      exact ih (some c) rest h

/-- The scan finds a lone year token at once. -/
lemma findYearFrom_year (p : Option Char) (hp : boundaryBefore p = true)
    (a b c d : Char) (hy : isYear4 a b c d = true) :
    findYearFrom p [a, b, c, d] = some [a, b, c, d] := by
  have hstep : findYearFrom p [a, b, c, d]
      = if yearHere p [a, b, c, d] then some (([a, b, c, d] : List Char).take 4)
        else findYearFrom (some a) [b, c, d] := rfl
  rw [hstep, if_pos (by simp [yearHere, hp, hy])]
  rfl

/-- `joinSpace` over a non-final token. -/
lemma joinSpace_cons_ne_nil (t : List Char) (ts : List (List Char)) (h : ts ≠ []) :
    joinSpace (t :: ts) = t ++ ' ' :: joinSpace ts := by
  cases ts with
  | nil => cases h rfl
  | cons u us => rfl

/-- A token that is exactly a year is found as the match of the join of
matchless tokens followed by that year. -/
lemma findYearFrom_join_with_year :
    ∀ (ws : List (List Char)) (year : List Char),
      (∀ w ∈ ws, findYearFrom (some ' ') w = none) →
      isYearToken year = true →
      findYearFrom (some ' ') (joinSpace (ws ++ [year])) = some year := by
  intro ws
  induction ws with
  | nil =>
    intro year _ hy
    match year, hy with
    | [a, b, c, d], hy =>
      exact findYearFrom_year (some ' ') rfl a b c d (by simpa [isYearToken] using hy)
  | cons w ws2 ih =>
    intro year hnone hy
    rw [List.cons_append, joinSpace_cons_ne_nil w _ (by simp)]
    rw [findYearFrom_append_skip w (some ' ') _ (hnone w (List.mem_cons_self _ _))]
    exact ih year (fun w2 hw2 => hnone w2 (List.mem_cons_of_mem _ hw2)) hy

/-- On a title of the form `brand model… year`, the regex search returns
exactly the year token, provided no earlier token matches. -/
lemma searchYear_title (brand year : List Char) (modelWords : List (List Char))
    (hb : searchYear brand = none)
    (hm : ∀ w ∈ modelWords, searchYear w = none)
    (hy : isYearToken year = true) :
    searchYear (joinSpace (brand :: (modelWords ++ [year]))) = some year := by
  unfold searchYear at *
  rw [joinSpace_cons_ne_nil brand _ (by simp)]
  rw [findYearFrom_append_skip brand none _ hb]
  refine findYearFrom_join_with_year modelWords year ?_ hy
  intro w hw
  rw [findYearFrom_nonword ' ' rfl w]
  exact hm w hw

lemma splitWsAux_append_token :
    ∀ (t cur rest : List Char), (∀ c ∈ t, c.isWhitespace = false) →
      splitWsAux cur (t ++ rest) = splitWsAux (t.reverse ++ cur) rest := by
  intro t
  induction t with
  | nil => intro cur rest _; rfl
  | cons c t2 ih =>
    intro cur rest h
    have hstep : splitWsAux cur ((c :: t2) ++ rest)
        = if c.isWhitespace then
            (if cur.isEmpty then splitWsAux [] (t2 ++ rest)
             else cur.reverse :: splitWsAux [] (t2 ++ rest))
          else splitWsAux (c :: cur) (t2 ++ rest) := rfl
    rw [hstep, if_neg (by simp [h c (List.mem_cons_self _ _)])]
    rw [List.reverse_cons, List.append_assoc]
    exact ih (c :: cur) rest (fun x hx => h x (List.mem_cons_of_mem _ hx))

/-- Splitting the space-join of nonempty whitespace-free tokens recovers
the tokens. -/
lemma splitWs_join :
    ∀ tokens : List (List Char), tokens ≠ [] →
      (∀ t ∈ tokens, t ≠ [] ∧ ∀ c ∈ t, c.isWhitespace = false) →
      splitWs (joinSpace tokens) = tokens := by
  intro tokens
  induction tokens with
  | nil => intro h _; cases h rfl
  | cons t ts ih =>
    intro _ hgood
    obtain ⟨htne, htws⟩ := hgood t (List.mem_cons_self _ _)
    by_cases hts : ts = []
    · subst hts
      have hlem := splitWsAux_append_token t [] [] htws
      simp only [List.append_nil] at hlem
      show splitWsAux [] t = [t]
      rw [hlem]
      have hstep : splitWsAux t.reverse ([] : List Char)
          = if t.reverse.isEmpty then [] else [t.reverse.reverse] := rfl
      rw [hstep, if_neg (by simp [htne]), List.reverse_reverse]
    · rw [joinSpace_cons_ne_nil t ts hts]
      show splitWsAux [] (t ++ ' ' :: joinSpace ts) = t :: ts
      rw [splitWsAux_append_token t [] _ htws, List.append_nil]
      have hstep : splitWsAux t.reverse (' ' :: joinSpace ts)
          = if (' ').isWhitespace then
              (if t.reverse.isEmpty then splitWsAux [] (joinSpace ts)
               else t.reverse.reverse :: splitWsAux [] (joinSpace ts))
            else splitWsAux (' ' :: t.reverse) (joinSpace ts) := rfl
      rw [hstep, if_pos (by decide), if_neg (by simp [htne]), List.reverse_reverse]
      congr 1
      exact ih hts (fun u hu => hgood u (List.mem_cons_of_mem _ hu))

/-- `list.remove` of a final element absent earlier. -/
lemma removeFirst_append_last (y : List Char) :
    ∀ ws : List (List Char), (∀ w ∈ ws, w ≠ y) →
      removeFirst y (ws ++ [y]) = ws := by
  intro ws
  induction ws with
  | nil => intro _; simp [removeFirst]
  | cons w ws2 ih =>
    intro h
    have hstep : removeFirst y ((w :: ws2) ++ [y])
        = if w = y then ws2 ++ [y] else w :: removeFirst y (ws2 ++ [y]) := rfl
    rw [hstep, if_neg (h w (List.mem_cons_self _ _))]
    congr 1
    exact ih (fun u hu => h u (List.mem_cons_of_mem _ hu))

/-- A token on which the year search fails cannot equal a year token. -/
lemma ne_year_of_no_search (w year : List Char)
    (hw : searchYear w = none) (hy : isYearToken year = true) : w ≠ year := by
  intro he
  subst he
  match w, hy with
  | [a, b, c, d], hy =>
    rw [searchYear,
      findYearFrom_year none rfl a b c d (by simpa [isYearToken] using hy)] at hw
    cases hw

/-! ## Claim C6 -/

/-- C6: for a title of the form `<Brand> <Model words> <Year>` — one
nonempty whitespace-free brand token without a year substring, at least
one model word likewise, then one token matching `(19|20)\d{2}` — both
title splitters yield `marque` = the brand token, `annee` = the year
token, and `modele` = the model words joined by single spaces in their
original order. -/
theorem title_split_brand_model_year (brand year : List Char) (modelWords : List (List Char))
    (htok : ∀ t ∈ brand :: (modelWords ++ [year]),
      t ≠ [] ∧ ∀ c ∈ t, c.isWhitespace = false)
    (hmw : modelWords ≠ [])
    (hyear : isYearToken year = true)
    (hbrand : searchYear brand = none)
    (hmodel : ∀ w ∈ modelWords, searchYear w = none) :
    extract_title_parts (joinSpace (brand :: (modelWords ++ [year])))
        = some (brand, joinSpace modelWords, some year)
    ∧ split_title (joinSpace (brand :: (modelWords ++ [year])))
        = (some brand, some (joinSpace modelWords), some year) := by
  have hsplit : splitWs (joinSpace (brand :: (modelWords ++ [year])))
      = brand :: (modelWords ++ [year]) :=
    splitWs_join _ (by simp) htok
  have hsearch : searchYear (joinSpace (brand :: (modelWords ++ [year]))) = some year :=
    searchYear_title brand year modelWords hbrand hmodel hyear
  have hbne : brand ≠ year := ne_year_of_no_search brand year hbrand hyear
  have hwne : ∀ w ∈ modelWords, w ≠ year :=
    fun w hw => ne_year_of_no_search w year (hmodel w hw) hyear
  have hrem : removeFirst year (modelWords ++ [year]) = modelWords :=
    removeFirst_append_last year modelWords hwne
  have hremFull : removeFirst year (brand :: (modelWords ++ [year]))
      = brand :: modelWords := by
    have hstep : removeFirst year (brand :: (modelWords ++ [year]))
        = if brand = year then modelWords ++ [year]
          else brand :: removeFirst year (modelWords ++ [year]) := rfl
    rw [hstep, if_neg hbne, hrem]
  have hremBrand : removeFirst brand (brand :: modelWords) = modelWords := by
    have hstep : removeFirst brand (brand :: modelWords)
        = if brand = brand then modelWords else brand :: removeFirst brand modelWords := rfl
    rw [hstep, if_pos rfl]
  constructor
  · unfold extract_title_parts
    rw [hsplit, hsearch]
    simp only [hrem]
  · unfold split_title
    rw [hsplit, hsearch]
    simp only [List.head?_cons]
    rw [if_pos (show year ∈ brand :: (modelWords ++ [year]) by simp)]
    rw [hremFull]
    rw [if_pos (List.mem_cons_self brand modelWords)]
    rw [hremBrand]
    rw [if_neg (by simp [hmw])]

/-- C6, witness at the concrete title "Toyota Corolla 2018". -/
theorem title_split_brand_model_year_witness :
    extract_title_parts
        (joinSpace ("Toyota".toList :: (["Corolla".toList] ++ ["2018".toList])))
        = some ("Toyota".toList, joinSpace ["Corolla".toList], some "2018".toList)
    ∧ split_title (joinSpace ("Toyota".toList :: (["Corolla".toList] ++ ["2018".toList])))
        = (some "Toyota".toList, some (joinSpace ["Corolla".toList]), some "2018".toList) :=
  title_split_brand_model_year "Toyota".toList "2018".toList ["Corolla".toList]
    (by decide) (by decide) (by decide) (by decide) (by decide)

/-! ## Claim C1 -/

/-- C1, counterexample: for category `motos` (and `location`), a bullet
text containing "diesel"/"essence" does record a `carburant` value, so
recording is not restricted to `voitures` as the claim states. -/
theorem carburant_recorded_beyond_voitures :
    (extract_details "motos" ["Moteur Diesel".toList] initDetails).carburant
        = some (some "Diesel")
    ∧ (extract_details "location" ["Essence".toList] initDetails).carburant
        = some (some "Essence") := by
  constructor <;> decide

/-- C1, amended: the `carburant` recorded from bullet texts does not
depend on the category at all — whenever some bullet contains "diesel"
or "essence" (case-insensitively), every category records the same
value as `voitures` does, and a value is recorded; the category only
controls the default `None` fill (for `voitures`) when no bullet
matches. -/
theorem carburant_category_independent (c : String) (items : List (List Char)) (d : Details)
    (h : ∃ t ∈ items, fuelMatch t = true) :
    (extract_details c items d).carburant = (extract_details "voitures" items d).carburant
    ∧ ∃ v, (extract_details c items d).carburant = some (some v) := by
  obtain ⟨w, hw⟩ := foldl_carburant_matched c items d h
  obtain ⟨w2, hw2⟩ := foldl_carburant_matched "voitures" items d h
  have hcong := foldl_carburant_congr c "voitures" items d d rfl
  have h12 : (some (some w) : Option (Option String)) = some (some w2) := by
    rw [← hw, ← hw2]; exact hcong
  constructor
  · rw [extract_details_carburant, extract_details_carburant, hw, hw2]
    simp [h12]
  · exact ⟨w, by rw [extract_details_carburant, hw]; simp⟩

/-- C1, witness for the amended theorem at a concrete input. -/
theorem carburant_category_independent_witness :
    (extract_details "motos" ["Moteur Diesel".toList] initDetails).carburant
        = (extract_details "voitures" ["Moteur Diesel".toList] initDetails).carburant
    ∧ ∃ v, (extract_details "motos" ["Moteur Diesel".toList] initDetails).carburant
        = some (some v) :=
  carburant_category_independent "motos" ["Moteur Diesel".toList] initDetails
    ⟨"Moteur Diesel".toList, by decide, by decide⟩

/-! ## Claim C2 -/

/-- C2, counterexample: with two bullet texts "10 km" and "20 km", the
extractor records `kilometrage = 20` — the last "km" match wins, not
the first as the claim states. -/
theorem kilometrage_last_match_overwrites :
    (extract_details "voitures" ["10 km".toList, "20 km".toList] initDetails).kilometrage
        = some (some 20)
    ∧ (extract_details "voitures" ["10 km".toList, "20 km".toList] initDetails).kilometrage
        ≠ some (some 10) := by
  constructor <;> decide

/-- C2, amended: `kilometrage` is taken from the LAST bullet text (in
iteration order) containing "km" with a non-empty digits-only parse;
later matches overwrite earlier ones. -/
theorem kilometrage_from_last_km_item (c : String) (pre post : List (List Char))
    (u : List Char) (d : Details)
    (hu : kmMatch u = true) (hpost : ∀ t ∈ post, kmMatch t = false) :
    (extract_details c (pre ++ u :: post) d).kilometrage
      = some (some (digitsVal (digitsOf (lowerStr u)))) := by
  rw [extract_details_kilometrage]
  have hfold : ((pre ++ u :: post).foldl (detailStep c) d).kilometrage
      = some (some (digitsVal (digitsOf (lowerStr u)))) := by
    rw [List.foldl_append]
    simp only [List.foldl_cons]
    rw [foldl_kilometrage_skip c post _ hpost]
    rw [detailStep_kilometrage]
    unfold kmMatch at hu
    rw [Bool.and_eq_true] at hu
    rw [if_pos ⟨hu.1, by simpa using hu.2⟩]
  rw [hfold]
  simp

/-- C2, witness for the amended theorem at a concrete input. -/
theorem kilometrage_from_last_km_item_witness :
    (extract_details "voitures" (["10 km".toList] ++ "20 km".toList :: []) initDetails).kilometrage
      = some (some (digitsVal (digitsOf (lowerStr "20 km".toList)))) :=
  kilometrage_from_last_km_item "voitures" ["10 km".toList] [] "20 km".toList initDetails
    (by decide) (by decide)

/-! ## Claim C8 -/

/-- C8: the numeric price parse of a text with no digit characters is
missing (never zero, and, being a total function, never an error); in
general the parse keeps exactly the digit characters and reads them as
a base-10 integer. -/
theorem extract_numeric_price_no_digits (s : List Char) :
    ((∀ c ∈ s, isDigitB c = false) → extract_numeric_price s = none)
    ∧ ((∃ c ∈ s, isDigitB c = true) → extract_numeric_price s = some (digitsVal (digitsOf s))) := by
  constructor
  · intro h
    unfold extract_numeric_price
    have hnil : digitsOf s = [] := by
      unfold digitsOf
      rw [List.filter_eq_nil_iff]
      intro c hc
      simp [h c hc]
    simp [hnil]
  · rintro ⟨c, hc, hdig⟩
    unfold extract_numeric_price
    have hne : digitsOf s ≠ [] := by
      unfold digitsOf
      intro hnil
      rw [List.filter_eq_nil_iff] at hnil
      exact absurd hdig (by simpa using hnil c hc)
    simp [List.isEmpty_iff, hne]

/-- C8, witness at concrete inputs. -/
theorem extract_numeric_price_no_digits_witness :
    extract_numeric_price "F CFA".toList = none
    ∧ extract_numeric_price "5 500 000 F".toList = some 5500000 :=
  ⟨(extract_numeric_price_no_digits "F CFA".toList).1 (by decide),
   ((extract_numeric_price_no_digits "5 500 000 F".toList).2 (by decide)).trans (by decide)⟩

/-! ## Claim C9 -/

/-- C9: brand canonicalization lower-cases and looks up the fixed
19-entry dictionary, mapping hits to their canonical form and misses to
the title-cased string (so an unknown brand is not left unchanged). -/
theorem clean_marque_canonicalization :
    marque_mapping.length = 19
    ∧ clean_marque "bmw".toList = "BMW".toList
    ∧ clean_marque "citroen".toList = "Citroën".toList
    ∧ clean_marque "foo".toList = "Foo".toList
    ∧ clean_marque "foo".toList ≠ "foo".toList
    ∧ (∀ s canon, marque_mapping.lookup (lowerStr s) = some canon → clean_marque s = canon)
    ∧ (∀ s, marque_mapping.lookup (lowerStr s) = none →
        clean_marque s = titleCase (lowerStr s)) := by
  refine ⟨by decide, by decide, by decide, by decide, by decide, ?_, ?_⟩
  · intro s canon h
    simp only [clean_marque]
    rw [h]
  · intro s h
    simp only [clean_marque]
    rw [h]

/-- C9, witness: the dictionary-hit and dictionary-miss branches at
concrete inputs. -/
theorem clean_marque_canonicalization_witness :
    clean_marque "toyota".toList = "Toyota".toList
    ∧ clean_marque "dacia".toList = titleCase (lowerStr "dacia".toList) :=
  ⟨clean_marque_canonicalization.2.2.2.2.2.1 "toyota".toList "Toyota".toList (by decide),
   clean_marque_canonicalization.2.2.2.2.2.2 "dacia".toList (by decide)⟩

/-! ## Claim C10 -/

/-- C10: `clean_dataframe` returns an empty table unchanged for both
source kinds (and any other source string) without running any cleaning
step. -/
theorem clean_dataframe_empty :
    clean_dataframe [] "scraper" = []
    ∧ clean_dataframe [] "webscraper" = []
    ∧ ∀ source : String, clean_dataframe [] source = [] :=
  ⟨rfl, rfl, fun _ => rfl⟩

end DakarAuto

end
